import Mathlib

/-!
Shallow embedding of the DayPlan statistics core (`models.py`, `storage.py`).

Python floats are modelled as exact rationals; Python's `round` (round half
to even) is `pyRound`; Python `datetime.date` values are modelled as
(year, month, day) triples, whose chronological order coincides with the
lexicographic order of the ISO date strings the source sorts by.
-/

namespace DayPlan

/-- Completion status of a day or task (`models.py CompletionStatus`). -/
inductive CompletionStatus where
  | EMPTY
  | NONE
  | PARTIAL
  | COMPLETE
deriving DecidableEq

/-- A subtask (`models.py SubTask`). -/
structure SubTask where
  id : String
  title : String
  completed : Bool := false
deriving DecidableEq

/-- A task (`models.py Task`). -/
structure Task where
  id : String
  title : String
  completed : Bool := false
  created_at : String := ""
  completed_at : Option String := none
  is_default : Bool := false
  is_expanded : Bool := true
  subtasks : List SubTask := []
deriving DecidableEq

/-- Pure version of `Task.toggle` (`models.py`); `now` stands for the value of
`datetime.now().isoformat()` at the call. -/
def Task.toggle (t : Task) (now : String) : Task :=
  let c := !t.completed
  { t with
    completed := c
    completed_at := if c then some now else none
    subtasks := if c then t.subtasks.map (fun st => { st with completed := true }) else t.subtasks }

/-- A calendar date, modelling Python `datetime.date`. -/
structure PyDate where
  year : Nat
  month : Nat
  day : Nat
deriving DecidableEq

/-- Strict chronological order on dates (equals lexicographic ISO-string order). -/
def PyDate.ltB (a b : PyDate) : Bool :=
  a.year < b.year ||
    (a.year == b.year && (a.month < b.month || (a.month == b.month && a.day < b.day)))

/-- Chronological order on dates, non-strict. -/
def PyDate.leB (a b : PyDate) : Bool :=
  a.year < b.year ||
    (a.year == b.year && (a.month < b.month || (a.month == b.month && a.day ≤ b.day)))

/-- The Gregorian leap-year rule, as in Python `datetime`. -/
def isLeapYear (y : Nat) : Bool :=
  y % 4 == 0 && (y % 100 != 0 || y % 400 == 0)

/-- Number of days of month `m` in year `y`, as in Python `datetime`. -/
def daysInMonth (y m : Nat) : Nat :=
  if m == 2 then (if isLeapYear y then 29 else 28)
  else if m == 4 || m == 6 || m == 9 || m == 11 then 30
  else 31

/-- The previous calendar day, modelling Python `date - timedelta(days=1)`. -/
def PyDate.pred (d : PyDate) : PyDate :=
  if 1 < d.day then ⟨d.year, d.month, d.day - 1⟩
  else if 1 < d.month then ⟨d.year, d.month - 1, daysInMonth d.year (d.month - 1)⟩
  else ⟨d.year - 1, 12, 31⟩

/-- `models.py get_month_bounds`. -/
def get_month_bounds (year month : Nat) : PyDate × PyDate :=
  let first_day : PyDate := ⟨year, month, 1⟩
  let last_day :=
    if month == 12 then PyDate.pred ⟨year + 1, 1, 1⟩ else PyDate.pred ⟨year, month + 1, 1⟩
  (first_day, last_day)

/-- Days in all years strictly before year `y` (proleptic Gregorian). -/
def daysBeforeYear (y : Nat) : Nat :=
  365 * (y - 1) + (y - 1) / 4 - (y - 1) / 100 + (y - 1) / 400

/-- Days in the months of year `y` strictly before month `m`. -/
def daysBeforeMonth (y m : Nat) : Nat :=
  ((List.range (m - 1)).map (fun i => daysInMonth y (i + 1))).sum

/-- Python `date.toordinal`: day count with 0001-01-01 mapped to 1. -/
def PyDate.toordinal (d : PyDate) : Nat :=
  daysBeforeYear d.year + daysBeforeMonth d.year d.month + d.day

/-- Python `date.weekday()`: Monday = 0 … Sunday = 6 (ordinal 1 was a Monday). -/
def PyDate.weekday (d : PyDate) : Fin 7 :=
  ⟨(d.toordinal + 6) % 7, Nat.mod_lt _ (by decide)⟩

/-- A day with its tasks (`models.py Day`). -/
structure Day where
  id : String
  date : PyDate
  tasks : List Task := []
  is_expanded : Bool := true
deriving DecidableEq

/-- `models.py Day.completed_count`. -/
def Day.completed_count (d : Day) : Nat := d.tasks.countP (fun t => t.completed)

/-- `models.py Day.total_count`. -/
def Day.total_count (d : Day) : Nat := d.tasks.length

/-- `models.py Day.completion_status`. -/
def Day.completion_status (d : Day) : CompletionStatus :=
  if d.tasks = [] then .EMPTY
  else if d.completed_count = 0 then .NONE
  else if d.completed_count = d.tasks.length then .COMPLETE
  else .PARTIAL

/-- Python `round` on rationals: round half to even. -/
def pyRound (q : ℚ) : ℤ :=
  if q - ⌊q⌋ < 1/2 then ⌊q⌋
  else if 1/2 < q - ⌊q⌋ then ⌊q⌋ + 1
  else if ⌊q⌋ % 2 = 0 then ⌊q⌋ else ⌊q⌋ + 1

/-- Round `n / d` to the nearest natural, halves to even (Python `round(n/d)`
for naturals `n`, `d`). -/
def natRoundHalfEven (n d : Nat) : Nat :=
  if 2 * (n % d) < d then n / d
  else if d < 2 * (n % d) then n / d + 1
  else if n / d % 2 = 0 then n / d else n / d + 1

/-- Python `round(q, 1)`. -/
def round1 (q : ℚ) : ℚ := (pyRound (q * 10) : ℚ) / 10

/-- `models.py Day.completion_percentage`: `round((completed/total) * 100)`,
0 when there are no tasks. -/
def Day.completion_percentage (d : Day) : Nat :=
  if d.tasks = [] then 0
  else natRoundHalfEven (d.completed_count * 100) d.total_count

/-- `models.py Statistics`. -/
structure Statistics where
  total_days : Nat := 0
  total_tasks : Nat := 0
  completed_tasks : Nat := 0
  average_completion : ℚ := 0
  current_streak : Nat := 0
  best_streak : Nat := 0
  perfect_days : Nat := 0
deriving DecidableEq

/-- `models.py Statistics.completion_rate`. -/
def Statistics.completion_rate (s : Statistics) : ℚ :=
  if s.total_tasks = 0 then 0
  else round1 ((s.completed_tasks : ℚ) / s.total_tasks * 100)

/-- Insert into a descending-by-date list, after existing entries with the
same or a later date (so the overall sort is stable, like Python `sorted`). -/
def insertDesc (d : Day) : List Day → List Day
  | [] => [d]
  | e :: rest => if PyDate.ltB e.date d.date then d :: e :: rest else e :: insertDesc d rest

/-- `sorted(days, key=lambda d: d.date, reverse=True)` in `storage.py`. -/
def sortDaysDesc (days : List Day) : List Day :=
  days.foldl (fun acc d => insertDesc d acc) []

/-- Accumulator (current_streak, best_streak, temp_streak) of the streak loop
in `storage.py get_statistics`. -/
structure SAcc where
  cur : Nat
  best : Nat
  temp : Nat
deriving DecidableEq

/-- One iteration of the streak loop. -/
def streakStep (acc : SAcc) (s : CompletionStatus) : SAcc :=
  if s = CompletionStatus.COMPLETE then
    { acc with temp := acc.temp + 1, best := max acc.best (acc.temp + 1) }
  else
    { cur := if 0 < acc.temp ∧ acc.cur = 0 then acc.temp else acc.cur
      best := acc.best
      temp := 0 }

/-- The streak loop over the newest→oldest status sequence. -/
def streakLoop (l : List CompletionStatus) : SAcc :=
  l.foldl streakStep ⟨0, 0, 0⟩

/-- The (current_streak, best_streak) pair with the post-loop fixups of
`storage.py get_statistics`. -/
def streaks (l : List CompletionStatus) : Nat × Nat :=
  let a := streakLoop l
  (if a.cur = 0 then a.temp else a.cur, max a.best a.temp)

/-- `storage.py Storage.get_statistics`, as a function of the stored days. -/
def get_statistics (days : List Day) : Statistics :=
  if days = [] then {}
  else
    let withTasks := days.filter (fun d => !d.tasks.isEmpty)
    let completion_rates := withTasks.map (fun d => ((d.completion_percentage : ℚ)))
    let s := streaks ((sortDaysDesc days).map Day.completion_status)
    { total_days := days.length
      total_tasks := (withTasks.map (fun d => d.tasks.length)).sum
      completed_tasks := (withTasks.map Day.completed_count).sum
      perfect_days :=
        (withTasks.filter (fun d => decide (d.completion_status = CompletionStatus.COMPLETE))).length
      average_completion :=
        if completion_rates = [] then 0
        else round1 (completion_rates.sum / completion_rates.length)
      current_streak := s.1
      best_streak := s.2 }

/-- `models.py MonthlyStatistics`. -/
structure MonthlyStatistics where
  year : Nat
  month : Nat
  days_with_tasks : Nat := 0
  total_tasks : Nat := 0
  completed_tasks : Nat := 0
  average_completion : ℚ := 0
  perfect_days : Nat := 0
  best_day : Option PyDate := none
  most_productive_weekday : Option String := none
deriving DecidableEq

/-- Insert-or-overwrite into an association list, keeping first-insertion
order (Python dict assignment `result[day.date] = day`). -/
def upsert (k : PyDate) (v : Day) : List (PyDate × Day) → List (PyDate × Day)
  | [] => [(k, v)]
  | (k1, v1) :: rest => if k1 = k then (k1, v) :: rest else (k1, v1) :: upsert k v rest

/-- `storage.py Storage.get_days_in_range`: the insertion-ordered dict of
in-range days, keyed by date. -/
def get_days_in_range (days : List Day) (start stop : PyDate) : List (PyDate × Day) :=
  days.foldl
    (fun acc d =>
      if PyDate.leB start d.date && PyDate.leB d.date stop then upsert d.date d acc else acc)
    []

/-- The `weekday_names` list of `storage.py get_monthly_statistics`. -/
def weekday_names : List String :=
  ["Monday", "Tuesday", "Wednesday", "Thursday", "Friday", "Saturday", "Sunday"]

/-- Name of a weekday index. -/
def weekdayName (w : Fin 7) : String := weekday_names.getD w.val ""

/-- Loop accumulator of `storage.py get_monthly_statistics`. -/
structure MonthAcc where
  days_with_tasks : Nat := 0
  total_tasks : Nat := 0
  completed_tasks : Nat := 0
  perfect_days : Nat := 0
  best_completion : ℚ := 0
  best_day : Option PyDate := none
  wc : Fin 7 → List ℚ := fun _ => []

/-- One iteration of the month loop of `get_monthly_statistics`. -/
def monthStep (acc : MonthAcc) (p : PyDate × Day) : MonthAcc :=
  if p.2.tasks = [] then acc
  else
    let completion : ℚ := p.2.completion_percentage
    { days_with_tasks := acc.days_with_tasks + 1
      total_tasks := acc.total_tasks + p.2.tasks.length
      completed_tasks := acc.completed_tasks + p.2.completed_count
      perfect_days :=
        acc.perfect_days + (if p.2.completion_status = CompletionStatus.COMPLETE then 1 else 0)
      best_completion := if acc.best_completion < completion then completion else acc.best_completion
      best_day := if acc.best_completion < completion then some p.1 else acc.best_day
      wc := fun w => if w = p.1.weekday then acc.wc w ++ [completion] else acc.wc w }

/-- The month loop over the in-range days. -/
def monthFold (dim : List (PyDate × Day)) : MonthAcc := dim.foldl monthStep {}

/-- Mean of a weekday's completion list. -/
def avgQ (cs : List ℚ) : ℚ := cs.sum / cs.length

/-- The iteration order of `weekday_completions.items()`: keys 0…6 were
inserted in Monday→Sunday order. -/
def weekdayOrder : List (Fin 7) := [0, 1, 2, 3, 4, 5, 6]

/-- One iteration of the best-weekday selection loop. -/
def selStep (wc : Fin 7 → List ℚ) (acc : ℚ × Option String) (w : Fin 7) : ℚ × Option String :=
  if wc w = [] then acc
  else if acc.1 < avgQ (wc w) then (avgQ (wc w), some (weekdayName w)) else acc

/-- The `most_productive_weekday` selection of `storage.py`, Monday→Sunday. -/
def selectWeekday (wc : Fin 7 → List ℚ) : ℚ × Option String :=
  weekdayOrder.foldl (selStep wc) (0, none)

/-- `storage.py Storage.get_monthly_statistics`. -/
def get_monthly_statistics (days : List Day) (year month : Nat) : MonthlyStatistics :=
  let b := get_month_bounds year month
  let dim := get_days_in_range days b.1 b.2
  if dim = [] then { year := year, month := month }
  else
    let acc := monthFold dim
    let withTasks := (dim.map (fun p => p.2)).filter (fun d => !d.tasks.isEmpty)
    let completion_rates := withTasks.map (fun d => ((d.completion_percentage : ℚ)))
    { year := year
      month := month
      days_with_tasks := acc.days_with_tasks
      total_tasks := acc.total_tasks
      completed_tasks := acc.completed_tasks
      average_completion :=
        if 0 < acc.days_with_tasks then round1 (completion_rates.sum / completion_rates.length)
        else 0
      perfect_days := acc.perfect_days
      best_day := acc.best_day
      most_productive_weekday := (selectWeekday acc.wc).2 }

/-- The weekday-completion buckets `get_monthly_statistics` builds for a month. -/
def monthWC (days : List Day) (year month : Nat) : Fin 7 → List ℚ :=
  (monthFold
    (get_days_in_range days (get_month_bounds year month).1 (get_month_bounds year month).2)).wc

/-- Spec-side: whether a status is COMPLETE, as a Bool. -/
def isComplete (s : CompletionStatus) : Bool := decide (s = CompletionStatus.COMPLETE)

/-- Spec-side: chunk lengths of the maximal COMPLETE runs (with zero-length
chunks at each break), given a running count `cur`. -/
def runsAux (l : List CompletionStatus) (cur : Nat) : List Nat :=
  match l with
  | [] => [cur]
  | s :: rest => if isComplete s then runsAux rest (cur + 1) else cur :: runsAux rest 0

/-- Maximum of a list of naturals. -/
def natMax (l : List Nat) : Nat := l.foldr max 0

/-- Spec-side: the maximum length of a run of consecutive COMPLETE entries —
the greatest `n` such that `replicate n COMPLETE` occurs as an infix. -/
def maxCompleteRun (l : List CompletionStatus) : Nat :=
  Nat.findGreatest (fun n => List.replicate n CompletionStatus.COMPLETE <:+: l) l.length

/-- Spec-side: the length of the first maximal COMPLETE run, walking the list
from its head. -/
def firstCompleteRun (l : List CompletionStatus) : Nat :=
  ((l.dropWhile (fun s => !isComplete s)).takeWhile isComplete).length

/-- The current-streak readout of a streak accumulator, with the post-loop
fixup of `get_statistics`. -/
def curOf (a : SAcc) : Nat := if a.cur = 0 then a.temp else a.cur

/-! Concrete example data used by witnesses and counterexamples. -/

/-- A task with only its completed flag relevant. -/
def mkTask (c : Bool) : Task := { id := "", title := "", completed := c }

/-- A day on date `dt` whose tasks have the given completed flags. -/
def mkDay (dt : PyDate) (cs : List Bool) : Day := { id := "", date := dt, tasks := cs.map mkTask }

/-- Five consecutive days, oldest→newest statuses C, C, N, C, C. -/
def exDays5 : List Day :=
  [mkDay ⟨2024, 1, 1⟩ [true], mkDay ⟨2024, 1, 2⟩ [true], mkDay ⟨2024, 1, 3⟩ [false],
   mkDay ⟨2024, 1, 4⟩ [true], mkDay ⟨2024, 1, 5⟩ [true]]

/-- Two days: the newest (Jan 2) has one incomplete task, the older (Jan 1)
one completed task. -/
def cexDaysC1 : List Day := [mkDay ⟨2024, 1, 1⟩ [true], mkDay ⟨2024, 1, 2⟩ [false]]

/-- Two days in January 2024 (a Monday and a Tuesday), each with a single
uncompleted task, so both weekdays average 0%. -/
def cexDaysC7 : List Day := [mkDay ⟨2024, 1, 1⟩ [false], mkDay ⟨2024, 1, 2⟩ [false]]

/-- A day with 200 tasks of which 199 are completed: the percentage rounds
to 100 although the status is PARTIAL. -/
def exDay200 : Day := mkDay ⟨2024, 1, 1⟩ (List.replicate 199 true ++ [false])

/-- A day with three tasks, two of them completed. -/
def exDay23 : Day := mkDay ⟨2024, 1, 1⟩ [true, true, false]

/-- Two days in January 2024 (a Monday and a Tuesday), each with a single
completed task, so both weekdays average 100%. -/
def exDays7 : List Day := [mkDay ⟨2024, 1, 1⟩ [true], mkDay ⟨2024, 1, 2⟩ [true]]

/-- A single day in January 2024 with one uncompleted task. -/
def exDays9 : List Day := [mkDay ⟨2024, 1, 1⟩ [false]]

/-- An incomplete task holding one incomplete subtask. -/
def exToggleTask : Task :=
  { id := "t1", title := "task", completed := false,
    subtasks := [{ id := "s1", title := "sub", completed := false }] }

/-! Claim theorems. -/

/-- C2: on five consecutive days with oldest→newest statuses
[COMPLETE, COMPLETE, NONE, COMPLETE, COMPLETE], get_statistics reports
current_streak = 2 and best_streak = 2. -/
theorem C2_streak_example :
    ((sortDaysDesc exDays5).map Day.completion_status)
        = [.COMPLETE, .COMPLETE, .NONE, .COMPLETE, .COMPLETE] ∧
    (get_statistics exDays5).current_streak = 2 ∧
    (get_statistics exDays5).best_streak = 2 := by
  decide

/-- C4: for every year and every month 1..12, get_month_bounds returns the
first and last calendar dates of the month, month 12 rolling to the next
year's January. -/
theorem C4_month_bounds (year month : Nat) (h1 : 1 ≤ month) (h2 : month ≤ 12) :
    get_month_bounds year month =
      (⟨year, month, 1⟩, ⟨year, month, daysInMonth year month⟩) := by
  interval_cases month <;>
    simp [get_month_bounds, PyDate.pred, daysInMonth, isLeapYear]

/-- Witness for C4 at the spec's two examples: February 2024 (leap year) and
December 2023 (no rollover into 2024). -/
theorem C4_month_bounds_witness :
    get_month_bounds 2024 2 = (⟨2024, 2, 1⟩, ⟨2024, 2, 29⟩) ∧
    get_month_bounds 2023 12 = (⟨2023, 12, 1⟩, ⟨2023, 12, 31⟩) :=
  ⟨(C4_month_bounds 2024 2 (by decide) (by decide)).trans (by decide),
   (C4_month_bounds 2023 12 (by decide) (by decide)).trans (by decide)⟩

/-- C5: the empty day set yields the all-zero Statistics rather than failing,
and completion_rate is 0 whenever total_tasks is 0. -/
theorem C5_empty_statistics :
    get_statistics [] =
      { total_days := 0, total_tasks := 0, completed_tasks := 0, average_completion := 0,
        current_streak := 0, best_streak := 0, perfect_days := 0 } ∧
    ∀ s : Statistics, s.total_tasks = 0 → s.completion_rate = 0 := by
  refine ⟨rfl, ?_⟩
  intro s h
  simp [Statistics.completion_rate, h]

/-- Witness for C5: a concrete Statistics value with no tasks has rate 0. -/
theorem C5_empty_statistics_witness :
    Statistics.completion_rate { total_tasks := 0 } = 0 :=
  C5_empty_statistics.2 _ rfl

/-- C6: toggling an incomplete Task completes every one of its subtasks;
toggling a completed Task back leaves the subtasks unchanged; completed_at is
set exactly when the task is completed after the toggle. -/
theorem C6_toggle_cascade (t : Task) (now : String) :
    (t.completed = false → ∀ st ∈ (t.toggle now).subtasks, st.completed = true) ∧
    (t.completed = true → (t.toggle now).subtasks = t.subtasks) ∧
    ((t.toggle now).completed_at ≠ none ↔ (t.toggle now).completed = true) := by
  refine ⟨?_, ?_, ?_⟩
  · intro h st hst
    rw [Task.toggle] at hst
    simp only [h, Bool.not_false, if_pos, List.mem_map] at hst
    obtain ⟨a, _, rfl⟩ := hst
    rfl
  · intro h
    simp [Task.toggle, h]
  · cases h : t.completed <;> simp [Task.toggle, h]

/-- Witness for C6 on a concrete incomplete task with one incomplete subtask. -/
theorem C6_toggle_cascade_witness :
    exToggleTask.completed = false ∧
    ∀ st ∈ (exToggleTask.toggle "2024-01-01T00:00:00").subtasks, st.completed = true :=
  ⟨rfl, (C6_toggle_cascade exToggleTask "2024-01-01T00:00:00").1 rfl⟩

/-- Counterexample to C1: the newest of two days is not COMPLETE (it is NONE),
yet current_streak is 1, not 0 — the completed run strictly older than the
newest incomplete day is counted as the current streak. -/
theorem C1_counterexample :
    ((sortDaysDesc cexDaysC1).map Day.completion_status).head? =
        some CompletionStatus.NONE ∧
    (get_statistics cexDaysC1).current_streak = 1 := by
  decide

/-- If every weekday in `l` is empty or has mean at most the accumulator
value, the selection loop leaves the accumulator unchanged. -/
theorem selFold_skip (wc : Fin 7 → List ℚ) (l : List (Fin 7)) (acc : ℚ × Option String)
    (h : ∀ w ∈ l, wc w = [] ∨ avgQ (wc w) ≤ acc.1) :
    l.foldl (selStep wc) acc = acc := by
  induction l with
  | nil => rfl
  | cons w rest ih =>
    have hstep : selStep wc acc w = acc := by
      by_cases hemp : wc w = []
      · rw [selStep, if_pos hemp]
      · have hle : avgQ (wc w) ≤ acc.1 :=
          (h w (List.mem_cons_self w rest)).resolve_left hemp
        rw [selStep, if_neg hemp, if_neg (not_lt.mpr hle)]
    rw [List.foldl_cons, hstep]
    exact ih (fun w' hw' => h w' (List.mem_cons_of_mem _ hw'))

/-- If every bucket holds only zeros, no weekday is selected. -/
theorem selectWeekday_of_zero (wc : Fin 7 → List ℚ)
    (h : ∀ w : Fin 7, ∀ x ∈ wc w, x = 0) :
    selectWeekday wc = (0, none) := by
  rw [selectWeekday]
  apply selFold_skip
  intro w _
  by_cases hemp : wc w = []
  · exact Or.inl hemp
  · refine Or.inr ?_
    have hs : (wc w).sum = 0 := List.sum_eq_zero (h w)
    simp [avgQ, hs]

/-- When the month has in-range days, most_productive_weekday is the result
of the weekday selection over the collected buckets. -/
theorem most_productive_weekday_eq (days : List Day) (year month : Nat)
    (hdim : get_days_in_range days (get_month_bounds year month).1
        (get_month_bounds year month).2 ≠ []) :
    (get_monthly_statistics days year month).most_productive_weekday =
      (selectWeekday (monthWC days year month)).2 := by
  simp only [get_monthly_statistics, monthWC]
  rw [if_neg hdim]

/-- Counterexample to C7: Monday and Tuesday are the only weekdays of the
month with days that have tasks, and they are tied for the strictly highest
mean completion (both 0%); yet no weekday is reported. -/
theorem C7_counterexample :
    monthWC cexDaysC7 2024 1 0 ≠ [] ∧
    monthWC cexDaysC7 2024 1 1 ≠ [] ∧
    avgQ (monthWC cexDaysC7 2024 1 0) = avgQ (monthWC cexDaysC7 2024 1 1) ∧
    (∀ w : Fin 7, w ≠ 0 → w ≠ 1 → monthWC cexDaysC7 2024 1 w = []) ∧
    (get_monthly_statistics cexDaysC7 2024 1).most_productive_weekday = none := by
  have h0 : monthWC cexDaysC7 2024 1 0 = [(0 : ℚ)] := by decide
  have h1 : monthWC cexDaysC7 2024 1 1 = [(0 : ℚ)] := by decide
  have hrest : ∀ w : Fin 7, w ≠ 0 → w ≠ 1 → monthWC cexDaysC7 2024 1 w = [] := by decide
  have hz : ∀ w : Fin 7, ∀ x ∈ monthWC cexDaysC7 2024 1 w, x = 0 := by
    intro w x hx
    by_cases hw0 : w = 0
    · rw [hw0, h0] at hx
      simpa using hx
    by_cases hw1 : w = 1
    · rw [hw1, h1] at hx
      simpa using hx
    · rw [hrest w hw0 hw1] at hx
      simp at hx
  refine ⟨by rw [h0]; simp, by rw [h1]; simp, by rw [h0, h1], hrest, ?_⟩
  rw [most_productive_weekday_eq cexDaysC7 2024 1 (by decide), selectWeekday_of_zero _ hz]

set_option maxRecDepth 4000 in
/-- C10: a Day is COMPLETE exactly when it has at least one task and all are
completed; this differs from percentage 100, witnessed by a 200-task day with
199 completed (round(99.5) = 100, status PARTIAL). -/
theorem C10_complete_iff_all :
    (∀ d : Day, d.completion_status = CompletionStatus.COMPLETE ↔
      d.tasks ≠ [] ∧ ∀ t ∈ d.tasks, t.completed = true) ∧
    exDay200.completion_percentage = 100 ∧
    exDay200.completion_status = CompletionStatus.PARTIAL := by
  refine ⟨?_, by decide, by decide⟩
  intro d
  constructor
  · intro hc
    rw [Day.completion_status] at hc
    by_cases h0 : d.tasks = []
    · rw [if_pos h0] at hc
      cases hc
    rw [if_neg h0] at hc
    by_cases h1 : d.completed_count = 0
    · rw [if_pos h1] at hc
      cases hc
    rw [if_neg h1] at hc
    by_cases h2 : d.completed_count = d.tasks.length
    · refine ⟨h0, ?_⟩
      rw [Day.completed_count] at h2
      exact List.countP_eq_length.mp h2
    · rw [if_neg h2] at hc
      cases hc
  · rintro ⟨hne, hall⟩
    have hcc : d.completed_count = d.tasks.length := by
      rw [Day.completed_count]
      exact List.countP_eq_length.mpr hall
    have hpos : 0 < d.tasks.length := List.length_pos.mpr hne
    rw [Day.completion_status, if_neg hne, if_neg (by omega), if_pos hcc]

/-- Bridge: the integer-arithmetic rounding used in `completion_percentage`
equals Python's banker's rounding of the exact rational quotient. -/
theorem natRoundHalfEven_eq_pyRound (n d : Nat) (hd : 0 < d) :
    (natRoundHalfEven n d : ℤ) = pyRound ((n : ℚ) / d) := by
  have hdq : (0 : ℚ) < (d : ℚ) := by exact_mod_cast hd
  have hdm : (d : ℚ) * ((n / d : ℕ) : ℚ) + ((n % d : ℕ) : ℚ) = (n : ℚ) := by
    exact_mod_cast Nat.div_add_mod n d
  have hsplit : (n : ℚ) / d = ((n / d : ℕ) : ℚ) + ((n % d : ℕ) : ℚ) / d := by
    rw [← hdm, add_div, mul_div_cancel_left₀ _ (ne_of_gt hdq)]
  have hmod_lt : n % d < d := Nat.mod_lt _ hd
  have hfrac0 : (0 : ℚ) ≤ ((n % d : ℕ) : ℚ) / d := by positivity
  have hfrac1 : ((n % d : ℕ) : ℚ) / d < 1 := by
    rw [div_lt_one hdq]
    exact_mod_cast hmod_lt
  have hcast : (((n / d : ℕ) : ℤ) : ℚ) = ((n / d : ℕ) : ℚ) := by norm_cast
  have hfloor : ⌊(n : ℚ) / d⌋ = ((n / d : ℕ) : ℤ) := by
    rw [hsplit, Int.floor_eq_iff]
    rw [hcast]
    constructor
    · linarith [hfrac0]
    · linarith [hfrac1]
  have hfract : (n : ℚ) / d - (⌊(n : ℚ) / d⌋ : ℚ) = ((n % d : ℕ) : ℚ) / d := by
    rw [hfloor, hcast, hsplit]
    ring
  have hlt : (((n % d : ℕ) : ℚ) / d < 1 / 2) ↔ (2 * (n % d) < d) := by
    rw [div_lt_div_iff hdq (by norm_num : (0 : ℚ) < 2), one_mul, mul_comm]
    exact_mod_cast Iff.rfl
  have hgt : ((1 : ℚ) / 2 < ((n % d : ℕ) : ℚ) / d) ↔ (d < 2 * (n % d)) := by
    rw [div_lt_div_iff (by norm_num : (0 : ℚ) < 2) hdq, one_mul, mul_comm]
    exact_mod_cast Iff.rfl
  have hpar : (((n / d : ℕ) : ℤ) % 2 = 0) ↔ ((n / d) % 2 = 0) := by
    constructor <;> intro h <;> exact_mod_cast h
  rw [natRoundHalfEven, pyRound, hfract, hfloor]
  simp only [hlt, hgt, hpar]
  split_ifs <;> push_cast <;> ring

/-- C8: completion_percentage is round(100 * completed/total) with halves to
even, and 0 for a day with no tasks. -/
theorem C8_percentage (d : Day) :
    (d.tasks = [] → d.completion_percentage = 0) ∧
    (d.tasks ≠ [] →
      (d.completion_percentage : ℤ) =
        pyRound (100 * (d.completed_count : ℚ) / d.total_count)) := by
  constructor
  · intro h
    simp [Day.completion_percentage, h]
  · intro h
    have hd : 0 < d.total_count := by
      rw [Day.total_count]
      exact List.length_pos.mpr h
    rw [Day.completion_percentage, if_neg h]
    rw [natRoundHalfEven_eq_pyRound _ _ hd]
    congr 1
    push_cast
    ring

/-- Witness for C8: a day with three tasks, two completed, has percentage 67,
matching the rounded rational. -/
theorem C8_percentage_witness :
    exDay23.tasks ≠ [] ∧
    (exDay23.completion_percentage : ℤ) =
      pyRound (100 * (exDay23.completed_count : ℚ) / exDay23.total_count) ∧
    exDay23.completion_percentage = 67 :=
  ⟨by decide, (C8_percentage exDay23).2 (by decide), by decide⟩

/-! Streak lemmas. -/

/-- The running count is a lower bound for the maximal chunk value. -/
theorem le_natMax_runsAux (l : List CompletionStatus) : ∀ t, t ≤ natMax (runsAux l t) := by
  induction l with
  | nil =>
    intro t
    simp [runsAux, natMax]
  | cons s rest ih =>
    intro t
    simp only [runsAux]
    by_cases hs : isComplete s
    · rw [if_pos hs]
      exact le_trans (Nat.le_succ t) (ih (t + 1))
    · rw [if_neg hs, natMax, List.foldr_cons]
      exact le_max_left _ _

/-- Computation rule for `natMax` on a cons. -/
theorem natMax_cons (a : Nat) (l : List Nat) : natMax (a :: l) = max a (natMax l) := rfl

/-- The loop's best value is the max of the incoming best and all chunk values. -/
theorem foldl_streakStep_best (l : List CompletionStatus) :
    ∀ c b tp, tp ≤ b →
      (l.foldl streakStep ⟨c, b, tp⟩).best = max b (natMax (runsAux l tp)) := by
  induction l with
  | nil =>
    intro c b tp h
    simp [runsAux, natMax]
    omega
  | cons s rest ih =>
    intro c b tp h
    rw [List.foldl_cons]
    simp only [streakStep]
    by_cases hs : s = CompletionStatus.COMPLETE
    · rw [if_pos hs]
      rw [ih c (max b (tp + 1)) (tp + 1) (le_max_right _ _)]
      rw [runsAux, if_pos (by simp [isComplete, hs])]
      have h2 := le_natMax_runsAux rest (tp + 1)
      omega
    · rw [if_neg hs]
      rw [ih _ b 0 (Nat.zero_le _)]
      rw [runsAux, if_neg (by simp [isComplete, hs]), natMax_cons]
      omega

/-- The loop keeps temp at most best. -/
theorem foldl_streakStep_temp_le (l : List CompletionStatus) :
    ∀ c b tp, tp ≤ b →
      (l.foldl streakStep ⟨c, b, tp⟩).temp ≤ (l.foldl streakStep ⟨c, b, tp⟩).best := by
  induction l with
  | nil =>
    intro c b tp h
    exact h
  | cons s rest ih =>
    intro c b tp h
    rw [List.foldl_cons]
    simp only [streakStep]
    by_cases hs : s = CompletionStatus.COMPLETE
    · rw [if_pos hs]
      exact ih c _ _ (le_max_right _ _)
    · rw [if_neg hs]
      exact ih _ b 0 (Nat.zero_le _)

/-- The reported best streak is the maximal chunk value. -/
theorem streaks_best (l : List CompletionStatus) :
    (streaks l).2 = natMax (runsAux l 0) := by
  have hb := foldl_streakStep_best l 0 0 0 (le_refl 0)
  have ht := foldl_streakStep_temp_le l 0 0 0 (le_refl 0)
  simp only [streaks, streakLoop]
  omega

/-- A COMPLETE block that is a prefix forces a large chunk value. -/
theorem replicate_pref_le (n : Nat) :
    ∀ (l : List CompletionStatus) (t : Nat),
      List.replicate n CompletionStatus.COMPLETE <+: l → n + t ≤ natMax (runsAux l t) := by
  induction n with
  | zero =>
    intro l t _
    simpa using le_natMax_runsAux l t
  | succ m ih =>
    intro l t hp
    rw [List.replicate_succ] at hp
    cases l with
    | nil => exact absurd hp (by simp)
    | cons s rest =>
      rw [List.cons_prefix_cons] at hp
      obtain ⟨rfl, hp2⟩ := hp
      rw [runsAux, if_pos (by simp [isComplete])]
      have h2 := ih rest (t + 1) hp2
      omega

/-- Any COMPLETE block occurring inside `l` is bounded by the chunk value. -/
theorem replicate_infix_le (n : Nat) (l : List CompletionStatus) :
    ∀ t, List.replicate n CompletionStatus.COMPLETE <:+: l → n ≤ natMax (runsAux l t) := by
  induction l with
  | nil =>
    intro t h
    rw [List.infix_nil] at h
    have h0 : n = 0 := (List.replicate_eq_nil _).mp h
    omega
  | cons s rest ih =>
    intro t h
    rcases List.infix_cons_iff.mp h with hp | hi
    · have h2 := replicate_pref_le n (s :: rest) t hp
      omega
    · by_cases hs : isComplete s
      · rw [runsAux, if_pos hs]
        exact ih (t + 1) hi
      · rw [runsAux, if_neg hs, natMax_cons]
        have h2 := ih 0 hi
        omega

/-- The maximal chunk value is witnessed by a COMPLETE block in the padded list. -/
theorem replicate_natMax_infix (l : List CompletionStatus) :
    ∀ t, List.replicate (natMax (runsAux l t)) CompletionStatus.COMPLETE <:+:
      List.replicate t CompletionStatus.COMPLETE ++ l := by
  induction l with
  | nil =>
    intro t
    have he : natMax (runsAux [] t) = t := by
      simp [runsAux, natMax]
    rw [he, List.append_nil]
  | cons s rest ih =>
    intro t
    by_cases hs : isComplete s
    · have hsC : s = CompletionStatus.COMPLETE := by
        revert hs
        simp [isComplete]
      subst hsC
      rw [runsAux, if_pos (by simp [isComplete])]
      have h2 := ih (t + 1)
      rw [List.replicate_succ', List.append_assoc, List.singleton_append] at h2
      exact h2
    · rw [runsAux, if_neg hs, natMax_cons]
      rcases Nat.le_total (natMax (runsAux rest 0)) t with hle | hle
      · rw [max_eq_left hle]
        exact (List.prefix_append _ _).isInfix
      · rw [max_eq_right hle]
        have h2 := ih 0
        simp only [List.replicate, List.nil_append] at h2
        refine h2.trans ?_
        exact ((List.suffix_cons s rest).trans (List.suffix_append _ _)).isInfix

/-- Chunk values are bounded by the count plus the list length. -/
theorem natMax_runsAux_le (l : List CompletionStatus) :
    ∀ t, natMax (runsAux l t) ≤ t + l.length := by
  induction l with
  | nil =>
    intro t
    simp [runsAux, natMax]
  | cons s rest ih =>
    intro t
    simp only [runsAux, List.length_cons]
    by_cases hs : isComplete s
    · rw [if_pos hs]
      have h2 := ih (t + 1)
      omega
    · rw [if_neg hs, natMax_cons]
      have h2 := ih 0
      omega

/-- The spec-side maximum run length coincides with the loop's chunk value. -/
theorem maxCompleteRun_eq_natMax (l : List CompletionStatus) :
    maxCompleteRun l = natMax (runsAux l 0) := by
  rw [maxCompleteRun, Nat.findGreatest_eq_iff]
  refine ⟨by simpa using natMax_runsAux_le l 0, ?_, ?_⟩
  · intro _
    have h2 := replicate_natMax_infix l 0
    simpa using h2
  · intro k hk _ hcon
    have h2 := replicate_infix_le k l 0 hcon
    omega

/-- C3: best_streak equals the maximum length of any run of consecutive
COMPLETE days in descending-date order, including the tail run; any
non-COMPLETE day (EMPTY included) terminates a run. -/
theorem C3_best_streak (days : List Day) :
    (get_statistics days).best_streak =
      maxCompleteRun ((sortDaysDesc days).map Day.completion_status) := by
  rw [maxCompleteRun_eq_natMax]
  by_cases h : days = []
  · subst h
    rfl
  · rw [get_statistics, if_neg h]
    exact streaks_best _

/-- The loop never changes a nonzero current value. -/
theorem foldl_streakStep_cur_stay (l : List CompletionStatus) :
    ∀ c b tp, c ≠ 0 → (l.foldl streakStep ⟨c, b, tp⟩).cur = c := by
  induction l with
  | nil =>
    intro c b tp _
    rfl
  | cons s rest ih =>
    intro c b tp h
    rw [List.foldl_cons]
    simp only [streakStep]
    by_cases hs : s = CompletionStatus.COMPLETE
    · rw [if_pos hs]
      exact ih c _ _ h
    · rw [if_neg hs]
      have hset : (if 0 < tp ∧ c = 0 then tp else c) = c := by
        rw [if_neg]
        rintro ⟨_, hc⟩
        exact h hc
      rw [hset]
      exact ih c b 0 h

/-- With a positive running streak, the readout is the count plus the
remaining leading COMPLETE block. -/
theorem curOf_foldl_pos (l : List CompletionStatus) :
    ∀ b k, 0 < k →
      curOf (l.foldl streakStep ⟨0, b, k⟩) = k + (l.takeWhile isComplete).length := by
  induction l with
  | nil =>
    intro b k hk
    simp [curOf]
  | cons s rest ih =>
    intro b k hk
    rw [List.foldl_cons]
    by_cases hs : s = CompletionStatus.COMPLETE
    · have hstep : streakStep ⟨0, b, k⟩ s = ⟨0, max b (k + 1), k + 1⟩ := by
        simp [streakStep, hs]
      rw [hstep, ih _ (k + 1) (Nat.succ_pos k)]
      rw [List.takeWhile_cons, if_pos (by simp [isComplete, hs]), List.length_cons]
      omega
    · have hstep : streakStep ⟨0, b, k⟩ s = ⟨k, b, 0⟩ := by
        simp [streakStep, hs, hk]
      rw [hstep]
      have hc := foldl_streakStep_cur_stay rest k b 0 (Nat.pos_iff_ne_zero.mp hk)
      rw [curOf, hc, if_neg (Nat.pos_iff_ne_zero.mp hk)]
      rw [List.takeWhile_cons, if_neg (by simp [isComplete, hs])]
      simp

/-- From the initial accumulator, the readout is the first maximal COMPLETE
run. -/
theorem curOf_foldl_zero (l : List CompletionStatus) :
    ∀ b, curOf (l.foldl streakStep ⟨0, b, 0⟩) = firstCompleteRun l := by
  induction l with
  | nil =>
    intro b
    rfl
  | cons s rest ih =>
    intro b
    rw [List.foldl_cons]
    by_cases hs : s = CompletionStatus.COMPLETE
    · have hstep : streakStep ⟨0, b, 0⟩ s = ⟨0, max b 1, 1⟩ := by
        simp [streakStep, hs]
      rw [hstep, curOf_foldl_pos rest _ 1 Nat.one_pos]
      rw [firstCompleteRun, List.dropWhile_cons, if_neg (by simp [isComplete, hs])]
      rw [List.takeWhile_cons, if_pos (by simp [isComplete, hs]), List.length_cons]
      omega
    · have hstep : streakStep ⟨0, b, 0⟩ s = ⟨0, b, 0⟩ := by
        simp [streakStep, hs]
      rw [hstep, ih b, firstCompleteRun, firstCompleteRun,
        List.dropWhile_cons, if_pos (by simp [isComplete, hs])]

/-- The reported current streak is the first maximal COMPLETE run. -/
theorem streaks_cur (l : List CompletionStatus) :
    (streaks l).1 = firstCompleteRun l :=
  curOf_foldl_zero l 0

/-- C1 amended: when the newest day is not COMPLETE, current_streak equals
the length of the first maximal COMPLETE run in newest→oldest order (0 when
no day is COMPLETE); a run of COMPLETE days beginning strictly after the
newest incomplete day therefore does count as the current streak. -/
theorem C1_amended_current_streak (days : List Day) (h1 : days ≠ [])
    (_h2 : ((sortDaysDesc days).map Day.completion_status).head? ≠
      some CompletionStatus.COMPLETE) :
    (get_statistics days).current_streak =
      firstCompleteRun ((sortDaysDesc days).map Day.completion_status) := by
  rw [get_statistics, if_neg h1]
  exact streaks_cur _

/-- Witness for the amended C1 on the two-day counterexample data. -/
theorem C1_amended_current_streak_witness :
    cexDaysC1 ≠ [] ∧
    ((sortDaysDesc cexDaysC1).map Day.completion_status).head? ≠
      some CompletionStatus.COMPLETE ∧
    (get_statistics cexDaysC1).current_streak =
      firstCompleteRun ((sortDaysDesc cexDaysC1).map Day.completion_status) :=
  ⟨by decide, by decide, C1_amended_current_streak cexDaysC1 (by decide) (by decide)⟩

/-! Monthly-statistics lemmas. -/

/-- One month-loop step keeps zero best tracking and all-zero buckets when
the day (if charged) has percentage 0. -/
theorem monthStep_zero (acc : MonthAcc) (p : PyDate × Day)
    (hpct : p.2.tasks ≠ [] → p.2.completion_percentage = 0)
    (h1 : acc.best_completion = 0) (h2 : acc.best_day = none)
    (h3 : ∀ w : Fin 7, ∀ x ∈ acc.wc w, x = 0) :
    (monthStep acc p).best_completion = 0 ∧ (monthStep acc p).best_day = none ∧
      (∀ w : Fin 7, ∀ x ∈ (monthStep acc p).wc w, x = 0) := by
  by_cases hp : p.2.tasks = []
  · rw [monthStep, if_pos hp]
    exact ⟨h1, h2, h3⟩
  · have h0 : p.2.completion_percentage = 0 := hpct hp
    rw [monthStep, if_neg hp]
    dsimp only
    simp only [h0, Nat.cast_zero, h1]
    refine ⟨by simp, by simp [h2], ?_⟩
    intro w x hx
    by_cases hw : w = p.1.weekday
    · rw [if_pos hw] at hx
      rcases List.mem_append.mp hx with hx1 | hx2
      · exact h3 w x hx1
      · simpa using hx2
    · rw [if_neg hw] at hx
      exact h3 w x hx

/-- The month loop keeps zero best tracking and all-zero buckets when every
charged day has percentage 0. -/
theorem monthFold_zero_inv (l : List (PyDate × Day)) :
    ∀ acc : MonthAcc,
      (∀ p ∈ l, p.2.tasks ≠ [] → p.2.completion_percentage = 0) →
      acc.best_completion = 0 → acc.best_day = none →
      (∀ w : Fin 7, ∀ x ∈ acc.wc w, x = 0) →
      (l.foldl monthStep acc).best_completion = 0 ∧
        (l.foldl monthStep acc).best_day = none ∧
        (∀ w : Fin 7, ∀ x ∈ (l.foldl monthStep acc).wc w, x = 0) := by
  induction l with
  | nil =>
    intro acc _ h1 h2 h3
    exact ⟨h1, h2, h3⟩
  | cons p rest ih =>
    intro acc hall h1 h2 h3
    rw [List.foldl_cons]
    have hstep := monthStep_zero acc p (hall p (List.mem_cons_self _ _)) h1 h2 h3
    exact ih (monthStep acc p) (fun q hq => hall q (List.mem_cons_of_mem _ hq))
      hstep.1 hstep.2.1 hstep.2.2

/-- The month loop never decreases days_with_tasks. -/
theorem monthFold_dwt_mono (l : List (PyDate × Day)) :
    ∀ acc : MonthAcc, acc.days_with_tasks ≤ (l.foldl monthStep acc).days_with_tasks := by
  induction l with
  | nil =>
    intro acc
    exact le_refl _
  | cons p rest ih =>
    intro acc
    rw [List.foldl_cons]
    have hstep : acc.days_with_tasks ≤ (monthStep acc p).days_with_tasks := by
      by_cases hp : p.2.tasks = []
      · rw [monthStep, if_pos hp]
      · rw [monthStep, if_neg hp]
        dsimp only
        exact Nat.le_succ _
    exact le_trans hstep (ih (monthStep acc p))

/-- A charged member makes days_with_tasks positive. -/
theorem monthFold_dwt_pos (l : List (PyDate × Day)) (p : PyDate × Day)
    (hmem : p ∈ l) (hp : p.2.tasks ≠ []) :
    0 < (monthFold l).days_with_tasks := by
  obtain ⟨s, t2, rfl⟩ := List.append_of_mem hmem
  rw [monthFold, List.foldl_append, List.foldl_cons]
  have h1 : 0 < (monthStep (s.foldl monthStep {}) p).days_with_tasks := by
    rw [monthStep, if_neg hp]
    dsimp only
    omega
  exact lt_of_lt_of_le h1 (monthFold_dwt_mono t2 _)

/-- With in-range days present, best_day and days_with_tasks come from the
month loop. -/
theorem monthly_stats_proj (days : List Day) (year month : Nat)
    (hdim : get_days_in_range days (get_month_bounds year month).1
        (get_month_bounds year month).2 ≠ []) :
    (get_monthly_statistics days year month).best_day =
        (monthFold (get_days_in_range days (get_month_bounds year month).1
          (get_month_bounds year month).2)).best_day ∧
      (get_monthly_statistics days year month).days_with_tasks =
        (monthFold (get_days_in_range days (get_month_bounds year month).1
          (get_month_bounds year month).2)).days_with_tasks := by
  simp only [get_monthly_statistics]
  rw [if_neg hdim]
  exact ⟨rfl, rfl⟩

/-- C9: if every in-range day that has tasks has completion percentage 0,
and some in-range day has tasks, the monthly statistics report best_day none
and most_productive_weekday none although days_with_tasks is positive. -/
theorem C9_zero_month (days : List Day) (year month : Nat)
    (h0 : ∀ p ∈ get_days_in_range days (get_month_bounds year month).1
        (get_month_bounds year month).2, p.2.tasks ≠ [] → p.2.completion_percentage = 0)
    (hx : ∃ p ∈ get_days_in_range days (get_month_bounds year month).1
        (get_month_bounds year month).2, p.2.tasks ≠ []) :
    (get_monthly_statistics days year month).best_day = none ∧
    (get_monthly_statistics days year month).most_productive_weekday = none ∧
    0 < (get_monthly_statistics days year month).days_with_tasks := by
  obtain ⟨p, hpmem, hptasks⟩ := hx
  have hdim : get_days_in_range days (get_month_bounds year month).1
      (get_month_bounds year month).2 ≠ [] := by
    intro hnil
    rw [hnil] at hpmem
    exact absurd hpmem (List.not_mem_nil p)
  have hproj := monthly_stats_proj days year month hdim
  have hinv := monthFold_zero_inv
    (get_days_in_range days (get_month_bounds year month).1 (get_month_bounds year month).2)
    {} h0 rfl rfl (by intro w x hx2; simp at hx2)
  refine ⟨?_, ?_, ?_⟩
  · rw [hproj.1, monthFold]
    exact hinv.2.1
  · rw [most_productive_weekday_eq days year month hdim, monthWC, monthFold,
      selectWeekday_of_zero _ hinv.2.2]
  · rw [hproj.2]
    exact monthFold_dwt_pos _ p hpmem hptasks

/-- Witness for C9 on a single January 2024 day with one uncompleted task. -/
theorem C9_zero_month_witness :
    (get_monthly_statistics exDays9 2024 1).best_day = none ∧
    (get_monthly_statistics exDays9 2024 1).most_productive_weekday = none ∧
    0 < (get_monthly_statistics exDays9 2024 1).days_with_tasks :=
  C9_zero_month exDays9 2024 1 (by decide) (by decide)

/-- Keeping the first component below A through the loop. -/
theorem selFold_lt (wc : Fin 7 → List ℚ) (A : ℚ) (l : List (Fin 7)) :
    ∀ acc : ℚ × Option String, acc.1 < A →
      (∀ v ∈ l, wc v = [] ∨ avgQ (wc v) < A) →
      (l.foldl (selStep wc) acc).1 < A := by
  induction l with
  | nil =>
    intro acc h _
    exact h
  | cons v rest ih =>
    intro acc h hall
    rw [List.foldl_cons]
    refine ih (selStep wc acc v) ?_ (fun v2 hv2 => hall v2 (List.mem_cons_of_mem _ hv2))
    rw [selStep]
    by_cases hv : wc v = []
    · rw [if_pos hv]
      exact h
    · rw [if_neg hv]
      by_cases hlt : acc.1 < avgQ (wc v)
      · rw [if_pos hlt]
        exact (hall v (List.mem_cons_self _ _)).resolve_left hv
      · rw [if_neg hlt]
        exact h

/-- The selection loop picks `w` when `w`'s mean is above the accumulator,
strictly above every earlier mean, and at least every later mean. -/
theorem selFold_picks (wc : Fin 7 → List ℚ) (w : Fin 7) (l1 l2 : List (Fin 7))
    (acc : ℚ × Option String)
    (hne : wc w ≠ []) (hacc : acc.1 < avgQ (wc w))
    (hl1 : ∀ v ∈ l1, wc v = [] ∨ avgQ (wc v) < avgQ (wc w))
    (hl2 : ∀ v ∈ l2, wc v = [] ∨ avgQ (wc v) ≤ avgQ (wc w)) :
    (l1 ++ w :: l2).foldl (selStep wc) acc = (avgQ (wc w), some (weekdayName w)) := by
  rw [List.foldl_append, List.foldl_cons]
  have hacc1 := selFold_lt wc (avgQ (wc w)) l1 acc hacc hl1
  have hstep : selStep wc (l1.foldl (selStep wc) acc) w =
      (avgQ (wc w), some (weekdayName w)) := by
    rw [selStep, if_neg hne, if_pos hacc1]
  rw [hstep]
  exact selFold_skip wc l2 _ hl2

/-- The Monday→Sunday scan order splits at any weekday. -/
theorem weekdayOrder_split (w : Fin 7) :
    ∃ l1 l2, weekdayOrder = l1 ++ w :: l2 ∧ (∀ v ∈ l1, v < w) := by
  fin_cases w
  · exact ⟨[], [1, 2, 3, 4, 5, 6], rfl, by decide⟩
  · exact ⟨[0], [2, 3, 4, 5, 6], rfl, by decide⟩
  · exact ⟨[0, 1], [3, 4, 5, 6], rfl, by decide⟩
  · exact ⟨[0, 1, 2], [4, 5, 6], rfl, by decide⟩
  · exact ⟨[0, 1, 2, 3], [5, 6], rfl, by decide⟩
  · exact ⟨[0, 1, 2, 3, 4], [6], rfl, by decide⟩
  · exact ⟨[0, 1, 2, 3, 4, 5], [], rfl, by decide⟩

/-- C7 amended: when a weekday's bucket mean is positive, at least every
other nonempty weekday's mean, and strictly above every earlier weekday's
mean, that weekday is reported — ties therefore keep the earliest weekday in
Monday→Sunday scan order, provided the tied mean is positive. -/
theorem C7_amended_weekday_tie (days : List Day) (year month : Nat) (w : Fin 7)
    (hne : monthWC days year month w ≠ [])
    (hpos : 0 < avgQ (monthWC days year month w))
    (hbefore : ∀ v : Fin 7, v < w →
      monthWC days year month v = [] ∨
        avgQ (monthWC days year month v) < avgQ (monthWC days year month w))
    (hall : ∀ v : Fin 7, monthWC days year month v ≠ [] →
      avgQ (monthWC days year month v) ≤ avgQ (monthWC days year month w)) :
    (get_monthly_statistics days year month).most_productive_weekday =
      some (weekdayName w) := by
  have hdim : get_days_in_range days (get_month_bounds year month).1
      (get_month_bounds year month).2 ≠ [] := by
    intro hnil
    apply hne
    rw [monthWC, hnil]
    rfl
  rw [most_productive_weekday_eq days year month hdim]
  obtain ⟨l1, l2, hsplit, hl1lt⟩ := weekdayOrder_split w
  rw [selectWeekday, hsplit]
  rw [selFold_picks (monthWC days year month) w l1 l2 (0, none) hne hpos
    (fun v hv => hbefore v (hl1lt v hv))
    (fun v _ =>
      if hv2 : monthWC days year month v = [] then Or.inl hv2
      else Or.inr (hall v hv2))]

/-- Witness for the amended C7: two 100% days on a Monday and a Tuesday make
the tied weekdays resolve to Monday. -/
theorem C7_amended_weekday_tie_witness :
    (get_monthly_statistics exDays7 2024 1).most_productive_weekday = some "Monday" := by
  have h0 : monthWC exDays7 2024 1 0 = [(100 : ℚ)] := by decide
  have h1 : monthWC exDays7 2024 1 1 = [(100 : ℚ)] := by decide
  have hrest : ∀ v : Fin 7, v ≠ 0 → v ≠ 1 → monthWC exDays7 2024 1 v = [] := by decide
  refine C7_amended_weekday_tie exDays7 2024 1 0 (by rw [h0]; simp)
    (by rw [h0]; norm_num [avgQ]) (fun v hv => absurd hv (by omega)) ?_
  intro v hv
  by_cases hv0 : v = 0
  · subst hv0
    exact le_refl _
  · by_cases hv1 : v = 1
    · subst hv1
      rw [h1, h0]
    · exact absurd (hrest v hv0 hv1) hv

end DayPlan
